import Mathlib

/-!
Verification of the validation-orchestration core of markdownlint-lsp.

The definitions below are shallow embeddings of the JavaScript source:
  - `src/unnamed/part_004` (the current `Server` class),
  - `src/lib/config.mjs`, `src/lib/merge-options.mjs`, `src/lib/cache-keys.mjs`.
JavaScript numbers that the code never lets go negative are modelled as `Nat`;
fields where the code relies on signedness checks are modelled as `Int`.
Strings are Lean `String`s (sequences of Unicode scalar values); a document
line is the text returned by `Server.#getLineText`.
-/

/- ------------------------------------------------------------------ -/
/- Positions, ranges and text edits (LSP shapes used by the server).   -/
/- ------------------------------------------------------------------ -/

/-- An LSP position: zero-based line and character offset. -/
structure PosM where
  line : Nat
  character : Nat
deriving DecidableEq, Repr

/-- An LSP range. The source field named `end` is modelled as `stop`
(`end` is a reserved word in Lean). -/
structure RangeM where
  start : PosM
  stop : PosM
deriving DecidableEq, Repr

/-- An LSP text edit as built by `Server.#fixInfoToTextEdit`. -/
structure TextEditM where
  range : RangeM
  newText : String
deriving DecidableEq, Repr

/-- First guard of `Server.#rangesOverlap` (part_004 lines 979-983 and,
with the arguments swapped, lines 986-992): `r1` ends at or before the
start of `r2`. -/
def rangeEndsBeforeStart (r1 r2 : RangeM) : Bool :=
  decide (r1.stop.line < r2.start.line) ||
    (decide (r1.stop.line = r2.start.line) &&
      decide (r1.stop.character ≤ r2.start.character))

/-- `Server.#rangesOverlap` (part_004 lines 976-996). -/
def rangesOverlap (r1 r2 : RangeM) : Bool :=
  if rangeEndsBeforeStart r1 r2 then false
  else if rangeEndsBeforeStart r2 r1 then false
  else true

theorem rangesOverlap_comm (r1 r2 : RangeM) :
    rangesOverlap r1 r2 = rangesOverlap r2 r1 := by
  unfold rangesOverlap
  cases h1 : rangeEndsBeforeStart r1 r2 <;>
    cases h2 : rangeEndsBeforeStart r2 r1 <;> simp [h1, h2]

/- ------------------------------------------------------------------ -/
/- C2: the fix-all batch (onCodeAction, part_004 lines 357-407).       -/
/- ------------------------------------------------------------------ -/

/-- The comparator passed to `allTextEdits.sort` (part_004 lines 373-377),
read as the induced "comes no later than" relation: the comparator returns
`b.range.start.line - a.range.start.line`, ties broken by
`b.range.start.character - a.range.start.character`, which orders edits by
descending start line, then descending start character. -/
def editDescBefore (a b : TextEditM) : Prop :=
  b.range.start.line < a.range.start.line ∨
    (b.range.start.line = a.range.start.line ∧
      b.range.start.character ≤ a.range.start.character)

instance : DecidableRel editDescBefore := fun a b => by
  unfold editDescBefore; infer_instance

instance : IsTotal TextEditM editDescBefore :=
  ⟨fun a b => by unfold editDescBefore; omega⟩

instance : IsTrans TextEditM editDescBefore :=
  ⟨fun a b c hab hbc => by
    unfold editDescBefore at *; omega⟩

/-- The sorting step of the fix-all branch (part_004 lines 373-377):
a stable sort of the edits by the descending-position comparator. -/
def sortEditsDescending (edits : List TextEditM) : List TextEditM :=
  List.insertionSort editDescBefore edits

/-- The greedy overlap-removal loop of the fix-all branch
(part_004 lines 380-392): keep an edit iff it overlaps none of the
edits already kept (first in order wins). -/
def removeOverlappingEdits (edits : List TextEditM) : List TextEditM :=
  edits.foldl
    (fun nonOverlappingEdits edit =>
      if nonOverlappingEdits.any
          (fun existing => rangesOverlap edit.range existing.range) then
        nonOverlappingEdits
      else
        nonOverlappingEdits ++ [edit])
    []

/-- The edit list of the fix-all code action, after sorting and
overlap removal (part_004 lines 370-404). -/
def fixAllNonOverlappingEdits (edits : List TextEditM) : List TextEditM :=
  removeOverlappingEdits (sortEditsDescending edits)

theorem removeOverlappingEdits_foldl_pairwise
    (l : List TextEditM) (acc : List TextEditM)
    (h : acc.Pairwise (fun a b => rangesOverlap a.range b.range = false)) :
    (l.foldl
      (fun nonOverlappingEdits edit =>
        if nonOverlappingEdits.any
            (fun existing => rangesOverlap edit.range existing.range) then
          nonOverlappingEdits
        else
          nonOverlappingEdits ++ [edit])
      acc).Pairwise (fun a b => rangesOverlap a.range b.range = false) := by
  induction l generalizing acc with
  | nil => simpa using h
  | cons e rest ih =>
    simp only [List.foldl_cons]
    apply ih
    by_cases hany :
        acc.any (fun existing => rangesOverlap e.range existing.range) = true
    · simp [hany, h]
    · have hall := List.any_eq_false.mp (Bool.eq_false_iff.mpr hany)
      simp only [hany, Bool.false_eq_true, if_false]
      rw [List.pairwise_append]
      refine ⟨h, List.pairwise_singleton _ _, ?_⟩
      intro a ha b hb
      have hb' : b = e := by simpa using hb
      subst hb'
      have := hall a ha
      rw [rangesOverlap_comm]
      simpa using this

/-- C2: for every stored list of edits, the fix-all action sorts them in
descending order by start line then start character, then greedily drops any
edit overlapping an already-kept edit (first in sorted order wins, with
end-to-start touching not counting as overlap), so the returned list
contains no two edits with overlapping ranges. -/
theorem claim_C2_fix_all_non_overlapping (edits : List TextEditM) (r1 r2 : RangeM) :
    (fixAllNonOverlappingEdits edits).Pairwise
      (fun a b => rangesOverlap a.range b.range = false) ∧
    (sortEditsDescending edits).Sorted editDescBefore ∧
    (sortEditsDescending edits).Perm edits ∧
    (r1.stop.line = r2.start.line → r1.stop.character ≤ r2.start.character →
      rangesOverlap r1 r2 = false) := by
  refine ⟨?_, ?_, ?_, ?_⟩
  · unfold fixAllNonOverlappingEdits removeOverlappingEdits
    exact removeOverlappingEdits_foldl_pairwise _ _ List.Pairwise.nil
  · exact List.sorted_insertionSort _ _
  · exact List.perm_insertionSort _ _
  · intro h1 h2
    simp [rangesOverlap, rangeEndsBeforeStart, h1, h2]

theorem claim_C2_fix_all_non_overlapping_witness :
    (fixAllNonOverlappingEdits
      [⟨⟨⟨0, 0⟩, ⟨0, 3⟩⟩, "a"⟩, ⟨⟨⟨0, 2⟩, ⟨0, 5⟩⟩, "b"⟩]).Pairwise
      (fun a b => rangesOverlap a.range b.range = false) ∧
    rangesOverlap ⟨⟨0, 0⟩, ⟨0, 2⟩⟩ ⟨⟨0, 2⟩, ⟨0, 5⟩⟩ = false :=
  ⟨(claim_C2_fix_all_non_overlapping
      [⟨⟨⟨0, 0⟩, ⟨0, 3⟩⟩, "a"⟩, ⟨⟨⟨0, 2⟩, ⟨0, 5⟩⟩, "b"⟩]
      ⟨⟨0, 0⟩, ⟨0, 2⟩⟩ ⟨⟨0, 2⟩, ⟨0, 5⟩⟩).1,
   (claim_C2_fix_all_non_overlapping []
      ⟨⟨0, 0⟩, ⟨0, 2⟩⟩ ⟨⟨0, 2⟩, ⟨0, 5⟩⟩).2.2.2 rfl (by decide)⟩

/- ------------------------------------------------------------------ -/
/- C5: Server.#fixInfoToTextEdit (part_004 lines 710-768).             -/
/- ------------------------------------------------------------------ -/

/-- A markdownlint fix descriptor. Absent fields are `none`; the source
reads them with JavaScript truthiness, which the `effective*` functions
reproduce (`0`, `""` and `undefined` are falsy). -/
structure FixInfoM where
  lineNumber : Option Int
  editColumn : Option Int
  deleteCount : Option Int
  insertText : Option String
deriving DecidableEq, Repr

/-- `fixInfo.lineNumber ? fixInfo.lineNumber - 1 : diagnostic.range.start.line`
(part_004 lines 711-713): a truthy (non-zero) 1-based line number is shifted
to 0-based, otherwise the diagnostic's start line is used. -/
def effectiveLineNumber (fi : FixInfoM) (diagStartLine : Nat) : Int :=
  match fi.lineNumber with
  | some n => if n = 0 then (diagStartLine : Int) else n - 1
  | none => (diagStartLine : Int)

/-- `(fixInfo.editColumn || 1) - 1` (part_004 line 715). -/
def effectiveEditColumn (fi : FixInfoM) : Int :=
  (match fi.editColumn with
   | some c => if c = 0 then 1 else c
   | none => 1) - 1

/-- `fixInfo.deleteCount || 0` (part_004 line 716). -/
def effectiveDeleteCount (fi : FixInfoM) : Int :=
  match fi.deleteCount with
  | some d => d
  | none => 0

/-- `fixInfo.insertText || ""` (part_004 line 717). -/
def effectiveInsertText (fi : FixInfoM) : String :=
  match fi.insertText with
  | some s => s
  | none => ""

/-- `Server.#fixInfoToTextEdit` (part_004 lines 710-768). The document is
given as its list of line texts, each line being exactly the string that
`Server.#getLineText` returns for it (for non-final lines the underlying
library includes the line's terminator in that text, so `lineText.length`
is the length the source clamps against). -/
def fixInfoToTextEdit (fi : FixInfoM) (diagStartLine : Nat)
    (docLines : List String) : Option TextEditM :=
  let lineNumber := effectiveLineNumber fi diagStartLine
  let editColumn := effectiveEditColumn fi
  let deleteCount := effectiveDeleteCount fi
  let insertText := effectiveInsertText fi
  if deleteCount = 0 ∧ insertText = "" then none
  else if lineNumber < 0 ∨ (docLines.length : Int) ≤ lineNumber then none
  else if editColumn < 0 then none
  else if deleteCount < 0 then none
  else
    let lineText := docLines.getD lineNumber.toNat ""
    let lineLen : Int := lineText.length
    let startChar := min editColumn lineLen
    let endChar := min (editColumn + deleteCount) lineLen
    if startChar = endChar ∧ insertText = "" then none
    else
      some { range := { start := { line := lineNumber.toNat,
                                   character := startChar.toNat },
                        stop := { line := lineNumber.toNat,
                                  character := endChar.toNat } },
             newText := insertText }

/-- C5: converting a fix descriptor to a text edit returns `none` exactly
when the descriptor is a no-op, the line is out of bounds, the column or
delete-count is negative, or the column range clamped to the actual line
length is empty with no insert text; otherwise it returns a single-line
half-open range whose start and end characters are clamped to the line's
length. -/
theorem claim_C5_fix_info_to_text_edit (fi : FixInfoM) (diagStartLine : Nat)
    (docLines : List String) :
    (fixInfoToTextEdit fi diagStartLine docLines = none ↔
      ((effectiveDeleteCount fi = 0 ∧ effectiveInsertText fi = "") ∨
       (effectiveLineNumber fi diagStartLine < 0 ∨
         (docLines.length : Int) ≤ effectiveLineNumber fi diagStartLine) ∨
       effectiveEditColumn fi < 0 ∨
       effectiveDeleteCount fi < 0 ∨
       (min (effectiveEditColumn fi)
          ((docLines.getD (effectiveLineNumber fi diagStartLine).toNat "").length : Int) =
        min (effectiveEditColumn fi + effectiveDeleteCount fi)
          ((docLines.getD (effectiveLineNumber fi diagStartLine).toNat "").length : Int) ∧
        effectiveInsertText fi = ""))) ∧
    (∀ e, fixInfoToTextEdit fi diagStartLine docLines = some e →
      e.range.start.line = (effectiveLineNumber fi diagStartLine).toNat ∧
      e.range.stop.line = e.range.start.line ∧
      e.range.start.character =
        (min (effectiveEditColumn fi)
          ((docLines.getD (effectiveLineNumber fi diagStartLine).toNat "").length : Int)).toNat ∧
      e.range.stop.character =
        (min (effectiveEditColumn fi + effectiveDeleteCount fi)
          ((docLines.getD (effectiveLineNumber fi diagStartLine).toNat "").length : Int)).toNat ∧
      e.range.start.character ≤ e.range.stop.character ∧
      e.range.stop.character ≤
        (docLines.getD (effectiveLineNumber fi diagStartLine).toNat "").length ∧
      e.newText = effectiveInsertText fi) := by
  unfold fixInfoToTextEdit
  dsimp only
  split_ifs with h1 h2 h3 h4 h5
  · exact ⟨iff_of_true rfl (Or.inl h1), fun e he => he.elim⟩
  · exact ⟨iff_of_true rfl (Or.inr (Or.inl h2)), fun e he => he.elim⟩
  · exact ⟨iff_of_true rfl (Or.inr (Or.inr (Or.inl h3))),
      fun e he => he.elim⟩
  · exact ⟨iff_of_true rfl (Or.inr (Or.inr (Or.inr (Or.inl h4)))),
      fun e he => he.elim⟩
  · exact ⟨iff_of_true rfl (Or.inr (Or.inr (Or.inr (Or.inr h5)))),
      fun e he => he.elim⟩
  · refine ⟨iff_of_false (fun h => h) ?_, ?_⟩
    · rintro (h | h | h | h | h)
      · exact h1 h
      · exact h2 h
      · exact h3 h
      · exact h4 h
      · exact h5 h
    · intro e he
      injection he with he
      subst he
      dsimp only
      refine ⟨rfl, rfl, rfl, rfl, ?_, ?_, rfl⟩
      · exact Int.toNat_le_toNat (min_le_min
          (le_add_of_nonneg_right (le_of_not_lt h4)) le_rfl)
      · have hle := min_le_right
          (effectiveEditColumn fi + effectiveDeleteCount fi)
          ((docLines.getD
            (effectiveLineNumber fi diagStartLine).toNat "").length : Int)
        omega

theorem claim_C5_fix_info_to_text_edit_witness :
    fixInfoToTextEdit ⟨some 1, some 1, some 2, some "xy"⟩ 0 ["abcd"] =
      some ⟨⟨⟨0, 0⟩, ⟨0, 2⟩⟩, "xy"⟩ ∧
    (⟨⟨⟨0, 0⟩, ⟨0, 2⟩⟩, "xy"⟩ : TextEditM).range.stop.character ≤
      (["abcd"].getD (effectiveLineNumber ⟨some 1, some 1, some 2, some "xy"⟩ 0).toNat "").length :=
  ⟨by decide,
   ((claim_C5_fix_info_to_text_edit ⟨some 1, some 1, some 2, some "xy"⟩ 0 ["abcd"]).2
      ⟨⟨⟨0, 0⟩, ⟨0, 2⟩⟩, "xy"⟩ (by decide)).2.2.2.2.2.1⟩

/- ------------------------------------------------------------------ -/
/- C6: position-encoding conversion helpers                            -/
/- (part_004 lines 851-939). A line is a list of Unicode scalar        -/
/- values, matching iteration with for..of over a well-formed string.  -/
/- ------------------------------------------------------------------ -/

/-- Number of UTF-16 code units of one code point (`char.length` in the
source's per-character loops). -/
def utf16Len (c : Char) : Nat :=
  if c.toNat < 0x10000 then 1 else 2

/-- Number of UTF-8 bytes of one code point
(`Buffer.from(char, "utf8").length`). -/
def utf8Len (c : Char) : Nat :=
  if c.toNat < 0x80 then 1
  else if c.toNat < 0x800 then 2
  else if c.toNat < 0x10000 then 3
  else 4

/-- `text.length` of a line: its total number of UTF-16 code units. -/
def utf16Length : List Char → Nat
  | [] => 0
  | c :: rest => utf16Len c + utf16Length rest

/-- `Buffer.from(text, "utf8").length`: total UTF-8 byte count. -/
def utf8Length : List Char → Nat
  | [] => 0
  | c :: rest => utf8Len c + utf8Length rest

/-- `Server.#utf16IndexToUtf8` (part_004 lines 885-890):
`Buffer.from(text.slice(0, index), "utf8").length`, with the guard
`index <= 0 → 0`. When `index` splits a surrogate pair, `slice` keeps a
lone high surrogate, which `Buffer.from` encodes as the 3-byte
replacement character: that is the `else 3` branch. -/
def utf16IndexToUtf8 : List Char → Nat → Nat
  | [], _ => 0
  | c :: rest, i =>
    if i = 0 then 0
    else if utf16Len c ≤ i then utf8Len c + utf16IndexToUtf8 rest (i - utf16Len c)
    else 3

/-- The character loop of `Server.#utf8IndexToUtf16` (part_004 lines
896-905): accumulate whole characters while their UTF-8 size still fits
in the remaining byte budget. -/
def utf8ToUtf16Walk : List Char → Nat → Nat
  | [], _ => 0
  | c :: rest, budget =>
    if budget < utf8Len c then 0
    else utf16Len c + utf8ToUtf16Walk rest (budget - utf8Len c)

/-- `Server.#utf8IndexToUtf16` (part_004 lines 892-907). -/
def utf8IndexToUtf16 (lineText : List Char) (index : Nat) : Nat :=
  if index = 0 then 0 else min (utf8ToUtf16Walk lineText index) (utf16Length lineText)

/-- The character loop of `Server.#utf16IndexToUtf32` (part_004 lines
913-921): count one code point per character that still fits in the
remaining UTF-16-unit budget. -/
def utf16ToUtf32Walk : List Char → Nat → Nat
  | [], _ => 0
  | c :: rest, budget =>
    if budget < utf16Len c then 0
    else 1 + utf16ToUtf32Walk rest (budget - utf16Len c)

/-- `Server.#utf16IndexToUtf32` (part_004 lines 909-923). -/
def utf16IndexToUtf32 (lineText : List Char) (index : Nat) : Nat :=
  if index = 0 then 0 else utf16ToUtf32Walk lineText index

/-- The character loop of `Server.#utf32IndexToUtf16` (part_004 lines
929-937): accumulate UTF-16 units of one character per remaining
code-point budget. -/
def utf32ToUtf16Walk : List Char → Nat → Nat
  | [], _ => 0
  | c :: rest, budget =>
    if budget = 0 then 0
    else utf16Len c + utf32ToUtf16Walk rest (budget - 1)

/-- `Server.#utf32IndexToUtf16` (part_004 lines 925-939). -/
def utf32IndexToUtf16 (lineText : List Char) (index : Nat) : Nat :=
  if index = 0 then 0 else min (utf32ToUtf16Walk lineText index) (utf16Length lineText)

/-- The negotiated wire encoding (`PositionEncodingKind`). -/
inductive PosEncodingM where
  | utf8
  | utf16
  | utf32
deriving DecidableEq, Repr

/-- The character-offset part of `Server.#convertPositionFromUtf16`
(part_004 lines 868-883), internal UTF-16 offset to wire offset; for the
UTF-16 encoding the caller returns the position unchanged. -/
def convertCharacterFromUtf16 (enc : PosEncodingM) (lineText : List Char)
    (character : Nat) : Nat :=
  match enc with
  | .utf16 => character
  | .utf8 => utf16IndexToUtf8 lineText character
  | .utf32 => utf16IndexToUtf32 lineText character

/-- The character-offset part of `Server.#convertPositionToUtf16`
(part_004 lines 851-866), wire offset to internal UTF-16 offset. -/
def convertCharacterToUtf16 (enc : PosEncodingM) (lineText : List Char)
    (character : Nat) : Nat :=
  match enc with
  | .utf16 => character
  | .utf8 => utf8IndexToUtf16 lineText character
  | .utf32 => utf32IndexToUtf16 lineText character

theorem utf16Len_pos (c : Char) : 1 ≤ utf16Len c := by
  unfold utf16Len; split_ifs <;> omega

theorem utf8Len_pos (c : Char) : 1 ≤ utf8Len c := by
  unfold utf8Len; split_ifs <;> omega

theorem utf16Length_append (a b : List Char) :
    utf16Length (a ++ b) = utf16Length a + utf16Length b := by
  induction a with
  | nil => simp [utf16Length]
  | cons c rest ih => simp [utf16Length, ih]; omega

theorem utf8Length_eq_zero_iff (l : List Char) :
    utf8Length l = 0 ↔ l = [] := by
  cases l with
  | nil => simp [utf8Length]
  | cons c rest =>
    simp only [utf8Length]
    have := utf8Len_pos c
    constructor
    · intro h; omega
    · intro h; exact absurd h (by simp)

theorem utf16Length_eq_zero_iff (l : List Char) :
    utf16Length l = 0 ↔ l = [] := by
  cases l with
  | nil => simp [utf16Length]
  | cons c rest =>
    simp only [utf16Length]
    have := utf16Len_pos c
    constructor
    · intro h; omega
    · intro h; exact absurd h (by simp)

theorem utf16IndexToUtf8_boundary (pre suf : List Char) :
    utf16IndexToUtf8 (pre ++ suf) (utf16Length pre) = utf8Length pre := by
  induction pre with
  | nil =>
    cases suf <;> simp [utf16IndexToUtf8, utf16Length, utf8Length]
  | cons c rest ih =>
    have h1 := utf16Len_pos c
    simp only [List.cons_append, utf16IndexToUtf8, utf16Length, utf8Length]
    rw [if_neg (by omega), if_pos (Nat.le_add_right _ _), Nat.add_sub_cancel_left]
    simp only [List.append_eq]
    rw [ih]

theorem utf8ToUtf16Walk_boundary (pre suf : List Char) :
    utf8ToUtf16Walk (pre ++ suf) (utf8Length pre) = utf16Length pre := by
  induction pre with
  | nil =>
    cases suf with
    | nil => simp [utf8ToUtf16Walk, utf16Length]
    | cons c rest =>
      have := utf8Len_pos c
      simp only [List.nil_append, utf8ToUtf16Walk, utf8Length, utf16Length]
      rw [if_pos (by omega)]
  | cons c rest ih =>
    simp only [List.cons_append, utf8ToUtf16Walk, utf8Length, utf16Length]
    rw [if_neg (by omega), Nat.add_sub_cancel_left]
    simp only [List.append_eq]
    rw [ih]

theorem utf16ToUtf32Walk_boundary (pre suf : List Char) :
    utf16ToUtf32Walk (pre ++ suf) (utf16Length pre) = pre.length := by
  induction pre with
  | nil =>
    cases suf with
    | nil => simp [utf16ToUtf32Walk, utf16Length]
    | cons c rest =>
      have := utf16Len_pos c
      simp only [List.nil_append, utf16ToUtf32Walk, utf16Length, List.length_nil]
      rw [if_pos (by omega)]
  | cons c rest ih =>
    simp only [List.cons_append, utf16ToUtf32Walk, utf16Length, List.length_cons]
    rw [if_neg (by omega), Nat.add_sub_cancel_left]
    simp only [List.append_eq]
    rw [ih]
    omega

theorem utf32ToUtf16Walk_boundary (pre suf : List Char) :
    utf32ToUtf16Walk (pre ++ suf) pre.length = utf16Length pre := by
  induction pre with
  | nil =>
    cases suf with
    | nil => simp [utf32ToUtf16Walk, utf16Length]
    | cons c rest =>
      simp [utf32ToUtf16Walk, utf16Length]
  | cons c rest ih =>
    simp only [List.cons_append, utf32ToUtf16Walk, List.length_cons, utf16Length]
    rw [if_neg (by omega), Nat.add_sub_cancel]
    simp only [List.append_eq]
    rw [ih]

theorem utf16IndexToUtf8_clamp (l : List Char) (i : Nat)
    (h : utf16Length l ≤ i) : utf16IndexToUtf8 l i = utf8Length l := by
  induction l generalizing i with
  | nil => simp [utf16IndexToUtf8, utf8Length]
  | cons c rest ih =>
    have h1 := utf16Len_pos c
    have h2 : utf16Len c + utf16Length rest ≤ i := by simpa [utf16Length] using h
    simp only [utf16IndexToUtf8, utf8Length]
    rw [if_neg (by omega), if_pos (by omega), ih _ (by omega)]

theorem utf16ToUtf32Walk_clamp (l : List Char) (i : Nat)
    (h : utf16Length l ≤ i) : utf16ToUtf32Walk l i = l.length := by
  induction l generalizing i with
  | nil => simp [utf16ToUtf32Walk]
  | cons c rest ih =>
    have h1 := utf16Len_pos c
    have h2 : utf16Len c + utf16Length rest ≤ i := by simpa [utf16Length] using h
    simp only [utf16ToUtf32Walk, List.length_cons]
    rw [if_neg (by omega), ih _ (by omega)]
    omega

theorem utf16IndexToUtf32_clamp (l : List Char) (i : Nat)
    (h : utf16Length l ≤ i) : utf16IndexToUtf32 l i = l.length := by
  unfold utf16IndexToUtf32
  split_ifs with h0
  · have hz : utf16Length l = 0 := by omega
    have := (utf16Length_eq_zero_iff l).mp hz
    simp [this]
  · exact utf16ToUtf32Walk_clamp l i h

theorem utf8ToUtf16Walk_clamp (l : List Char) (j : Nat)
    (h : utf8Length l ≤ j) : utf8ToUtf16Walk l j = utf16Length l := by
  induction l generalizing j with
  | nil => simp [utf8ToUtf16Walk, utf16Length]
  | cons c rest ih =>
    have h1 := utf8Len_pos c
    have h2 : utf8Len c + utf8Length rest ≤ j := by simpa [utf8Length] using h
    simp only [utf8ToUtf16Walk, utf16Length]
    rw [if_neg (by omega), ih _ (by omega)]

theorem utf8IndexToUtf16_clamp (l : List Char) (j : Nat)
    (h : utf8Length l ≤ j) : utf8IndexToUtf16 l j = utf16Length l := by
  unfold utf8IndexToUtf16
  split_ifs with h0
  · have hz : utf8Length l = 0 := by omega
    have := (utf8Length_eq_zero_iff l).mp hz
    simp [this, utf16Length]
  · rw [utf8ToUtf16Walk_clamp l j h]
    exact min_self _

theorem utf32ToUtf16Walk_clamp (l : List Char) (j : Nat)
    (h : l.length ≤ j) : utf32ToUtf16Walk l j = utf16Length l := by
  induction l generalizing j with
  | nil => simp [utf32ToUtf16Walk, utf16Length]
  | cons c rest ih =>
    have h2 : rest.length + 1 ≤ j := by simpa using h
    simp only [utf32ToUtf16Walk, utf16Length]
    rw [if_neg (by omega), ih _ (by omega)]

theorem utf32IndexToUtf16_clamp (l : List Char) (j : Nat)
    (h : l.length ≤ j) : utf32IndexToUtf16 l j = utf16Length l := by
  unfold utf32IndexToUtf16
  split_ifs with h0
  · have hz : l = [] := List.length_eq_zero.mp (by omega)
    simp [hz, utf16Length]
  · rw [utf32ToUtf16Walk_clamp l j h]
    exact min_self _

theorem utf8_roundtrip (pre suf : List Char) :
    utf8IndexToUtf16 (pre ++ suf)
      (utf16IndexToUtf8 (pre ++ suf) (utf16Length pre)) = utf16Length pre := by
  rw [utf16IndexToUtf8_boundary]
  unfold utf8IndexToUtf16
  split_ifs with h0
  · have : pre = [] := (utf8Length_eq_zero_iff pre).mp h0
    simp [this, utf16Length]
  · rw [utf8ToUtf16Walk_boundary, utf16Length_append]
    exact min_eq_left (Nat.le_add_right _ _)

theorem utf32_roundtrip (pre suf : List Char) :
    utf32IndexToUtf16 (pre ++ suf)
      (utf16IndexToUtf32 (pre ++ suf) (utf16Length pre)) = utf16Length pre := by
  have hpre : utf16IndexToUtf32 (pre ++ suf) (utf16Length pre) = pre.length := by
    unfold utf16IndexToUtf32
    split_ifs with h0
    · have : pre = [] := (utf16Length_eq_zero_iff pre).mp (by omega)
      simp [this]
    · exact utf16ToUtf32Walk_boundary pre suf
  rw [hpre]
  unfold utf32IndexToUtf16
  split_ifs with h0
  · have : pre = [] := List.length_eq_zero.mp h0
    simp [this, utf16Length]
  · rw [utf32ToUtf16Walk_boundary, utf16Length_append]
    exact min_eq_left (Nat.le_add_right _ _)

/-- C6: for every negotiated wire encoding, every document line and every
internal UTF-16 offset on a character boundary within the line, converting
internal-to-wire then wire-to-internal returns the original offset; offsets
beyond the end of the line clamp to the line length in both directions. -/
theorem claim_C6_position_encoding_roundtrip (enc : PosEncodingM)
    (lineText pre suf : List Char) (i j : Nat) :
    (lineText = pre ++ suf →
      convertCharacterToUtf16 enc lineText
        (convertCharacterFromUtf16 enc lineText (utf16Length pre)) =
        utf16Length pre) ∧
    (utf16Length lineText ≤ i →
      utf16IndexToUtf8 lineText i = utf8Length lineText ∧
      utf16IndexToUtf32 lineText i = lineText.length) ∧
    (utf8Length lineText ≤ j →
      utf8IndexToUtf16 lineText j = utf16Length lineText) ∧
    (lineText.length ≤ j →
      utf32IndexToUtf16 lineText j = utf16Length lineText) := by
  refine ⟨?_, ?_, ?_, ?_⟩
  · rintro rfl
    cases enc with
    | utf16 => rfl
    | utf8 => exact utf8_roundtrip pre suf
    | utf32 => exact utf32_roundtrip pre suf
  · intro h
    exact ⟨utf16IndexToUtf8_clamp _ _ h, utf16IndexToUtf32_clamp _ _ h⟩
  · exact utf8IndexToUtf16_clamp _ _
  · exact utf32IndexToUtf16_clamp _ _

theorem claim_C6_position_encoding_roundtrip_witness :
    convertCharacterToUtf16 .utf8 ['a', '€', '𝄞']
      (convertCharacterFromUtf16 .utf8 ['a', '€', '𝄞']
        (utf16Length ['a', '€'])) = utf16Length ['a', '€'] ∧
    convertCharacterToUtf16 .utf32 ['a', '€', '𝄞']
      (convertCharacterFromUtf16 .utf32 ['a', '€', '𝄞']
        (utf16Length ['a', '€'])) = utf16Length ['a', '€'] ∧
    utf8IndexToUtf16 ['a', '€', '𝄞'] 9 = utf16Length ['a', '€', '𝄞'] :=
  ⟨(claim_C6_position_encoding_roundtrip .utf8 ['a', '€', '𝄞']
      ['a', '€'] ['𝄞'] 0 0).1 rfl,
   (claim_C6_position_encoding_roundtrip .utf32 ['a', '€', '𝄞']
      ['a', '€'] ['𝄞'] 0 0).1 rfl,
   (claim_C6_position_encoding_roundtrip .utf8 ['a', '€', '𝄞']
      [] [] 0 9).2.2.1 (by decide)⟩

/- ------------------------------------------------------------------ -/
/- C7: the config cache (part_004 lines 26, 436-460, 161, 230, 620).   -/
/- A JavaScript Map is modelled as an insertion-ordered list of        -/
/- key/value pairs with unique keys; cached config values are opaque   -/
/- and abstracted as Nat.                                              -/
/- ------------------------------------------------------------------ -/

abbrev ConfigCacheM := List (String × Nat)

/-- `CONFIG_CACHE_MAX_SIZE` (part_004 line 26). -/
def CONFIG_CACHE_MAX_SIZE : Nat := 100

/-- `Map.prototype.get`. -/
def cacheGet (c : ConfigCacheM) (k : String) : Option Nat :=
  (c.find? (fun p => decide (p.1 = k))).map (fun p => p.2)

/-- `Map.prototype.delete`. -/
def cacheDelete (c : ConfigCacheM) (k : String) : ConfigCacheM :=
  c.filter (fun p => decide (p.1 ≠ k))

/-- `Map.prototype.set`: updates an existing key in place, otherwise
appends at the end of the iteration order. -/
def cacheSet (c : ConfigCacheM) (k : String) (v : Nat) : ConfigCacheM :=
  if c.any (fun p => decide (p.1 = k)) then
    c.map (fun p => if p.1 = k then (k, v) else p)
  else c ++ [(k, v)]

/-- The config-cache block of `Server.validateDocument` (part_004 lines
436-460): on a miss, load a fresh value, evict the first (oldest) key
when at capacity, then insert; on a hit, delete and re-add the entry to
move it to the end (LRU refresh). -/
def cacheLookupUpdate (c : ConfigCacheM) (k : String) (fresh : Nat) :
    ConfigCacheM :=
  match cacheGet c k with
  | some v => cacheSet (cacheDelete c k) k v
  | none =>
    let c1 := if CONFIG_CACHE_MAX_SIZE ≤ c.length then
        match c.head? with
        | some oldest => cacheDelete c oldest.1
        | none => c
      else c
    cacheSet c1 k fresh

/-- Every mutation of `#configCache` in part_004: the validate-document
lookup/update (lines 436-460), `clear()` on watched-file change, settings
change and workspace-folder change (lines 161, 243, 620), and per-key
`delete` on document close (line 230). -/
inductive CacheOpM where
  | access (k : String) (fresh : Nat)
  | clearAll
  | close (k : String)

def applyCacheOp (c : ConfigCacheM) : CacheOpM → ConfigCacheM
  | .access k fresh => cacheLookupUpdate c k fresh
  | .clearAll => []
  | .close k => cacheDelete c k

theorem cacheGet_eq_none_iff (c : ConfigCacheM) (k : String) :
    cacheGet c k = none ↔ ∀ p ∈ c, p.1 ≠ k := by
  unfold cacheGet
  rw [Option.map_eq_none', List.find?_eq_none]
  simp

theorem cacheSet_of_not_mem (c : ConfigCacheM) (k : String) (v : Nat)
    (h : ∀ p ∈ c, p.1 ≠ k) : cacheSet c k v = c ++ [(k, v)] := by
  unfold cacheSet
  have hany : (c.any (fun p => decide (p.1 = k))) = false := by
    rw [List.any_eq_false]
    intro p hp
    simpa using h p hp
  rw [hany]
  simp

theorem cacheDelete_keys_ne (c : ConfigCacheM) (k : String) :
    ∀ p ∈ cacheDelete c k, p.1 ≠ k := by
  intro p hp
  have := List.of_mem_filter hp
  simpa using this

theorem length_filter_lt_of_mem (l : ConfigCacheM)
    (pred : String × Nat → Bool) (x : String × Nat)
    (hx : x ∈ l) (hpx : pred x = false) :
    (l.filter pred).length < l.length := by
  induction l with
  | nil => cases hx
  | cons a rest ih =>
    rcases List.mem_cons.mp hx with rfl | hx'
    · have hle := List.length_filter_le pred rest
      simp [List.filter_cons, hpx]
      omega
    · by_cases hpa : pred a = true
      · have := ih hx'
        simp [List.filter_cons, hpa]
        omega
      · have := ih hx'
        simp [List.filter_cons, Bool.eq_false_iff.mpr hpa]
        omega

theorem cacheGet_some_mem (c : ConfigCacheM) (k : String) (v : Nat)
    (hget : cacheGet c k = some v) : ∃ p ∈ c, p.1 = k := by
  unfold cacheGet at hget
  rcases Option.map_eq_some'.mp hget with ⟨p, hp, hpv⟩
  refine ⟨p, List.mem_of_find?_eq_some hp, ?_⟩
  have := List.find?_some hp
  simpa using this

theorem cacheLookupUpdate_hit (c : ConfigCacheM) (k : String) (fresh v : Nat)
    (hget : cacheGet c k = some v) :
    cacheLookupUpdate c k fresh = cacheDelete c k ++ [(k, v)] := by
  unfold cacheLookupUpdate
  rw [hget]
  exact cacheSet_of_not_mem _ _ _ (cacheDelete_keys_ne c k)

theorem cacheLookupUpdate_miss_under (c : ConfigCacheM) (k : String)
    (fresh : Nat) (hget : cacheGet c k = none)
    (hlt : c.length < CONFIG_CACHE_MAX_SIZE) :
    cacheLookupUpdate c k fresh = c ++ [(k, fresh)] := by
  unfold cacheLookupUpdate
  rw [hget]
  dsimp only
  rw [if_neg (by omega)]
  exact cacheSet_of_not_mem _ _ _ ((cacheGet_eq_none_iff c k).mp hget)

theorem cacheLookupUpdate_miss_at_cap (e : String × Nat)
    (rest : ConfigCacheM) (k : String) (fresh : Nat)
    (hget : cacheGet (e :: rest) k = none)
    (hcap : CONFIG_CACHE_MAX_SIZE ≤ (e :: rest).length) :
    cacheLookupUpdate (e :: rest) k fresh =
      cacheDelete (e :: rest) e.1 ++ [(k, fresh)] := by
  unfold cacheLookupUpdate
  rw [hget]
  dsimp only
  rw [if_pos hcap]
  simp only [List.head?_cons]
  apply cacheSet_of_not_mem
  intro p hp
  have hpc : p ∈ e :: rest := List.mem_of_mem_filter hp
  exact (cacheGet_eq_none_iff _ k).mp hget p hpc

theorem cacheDelete_head_nodup (e : String × Nat) (rest : ConfigCacheM)
    (hnd : ((e :: rest).map Prod.fst).Nodup) :
    cacheDelete (e :: rest) e.1 = rest := by
  unfold cacheDelete
  rw [List.filter_cons]
  have h1 : (decide (e.1 ≠ e.1)) = false := by simp
  rw [h1]
  simp only [Bool.false_eq_true, if_false]
  apply List.filter_eq_self.mpr
  intro p hp
  simp only [decide_eq_true_eq]
  intro hpe
  have hnd' : (e.1 :: rest.map Prod.fst).Nodup := by
    simpa only [List.map_cons] using hnd
  rcases List.nodup_cons.mp hnd' with ⟨hne, _⟩
  exact hne (by rw [← hpe]; exact List.mem_map_of_mem Prod.fst hp)

theorem applyCacheOp_length (c : ConfigCacheM) (op : CacheOpM)
    (h : c.length ≤ CONFIG_CACHE_MAX_SIZE) :
    (applyCacheOp c op).length ≤ CONFIG_CACHE_MAX_SIZE := by
  cases op with
  | clearAll => simp [applyCacheOp, CONFIG_CACHE_MAX_SIZE]
  | close k =>
    have := List.length_filter_le (fun p => decide (p.1 ≠ k)) c
    simp only [applyCacheOp, cacheDelete]
    omega
  | access k fresh =>
    simp only [applyCacheOp]
    cases hget : cacheGet c k with
    | some v =>
      rw [cacheLookupUpdate_hit c k fresh v hget]
      rcases cacheGet_some_mem c k v hget with ⟨p, hpc, hpk⟩
      have hlt := length_filter_lt_of_mem c
        (fun p => decide (p.1 ≠ k)) p hpc (by simp [hpk])
      have : (cacheDelete c k).length < c.length := hlt
      simp only [List.length_append, List.length_cons, List.length_nil]
      omega
    | none =>
      by_cases hcap : CONFIG_CACHE_MAX_SIZE ≤ c.length
      · cases c with
        | nil => simp [CONFIG_CACHE_MAX_SIZE] at hcap
        | cons e rest =>
          rw [cacheLookupUpdate_miss_at_cap e rest k fresh hget hcap]
          have hle : (cacheDelete (e :: rest) e.1).length ≤ rest.length := by
            unfold cacheDelete
            rw [List.filter_cons]
            have h1 : (decide (e.1 ≠ e.1)) = false := by simp
            rw [h1]
            simp only [Bool.false_eq_true, if_false]
            exact List.length_filter_le _ rest
          simp only [List.length_append, List.length_cons, List.length_nil]
          simp only [List.length_cons] at h
          omega
      · rw [cacheLookupUpdate_miss_under c k fresh hget (by omega)]
        simp only [List.length_append, List.length_cons, List.length_nil]
        omega

/-- C7: the configuration cache never holds more entries than its fixed
capacity of 100; an insertion into a full cache evicts the first (least
recently used) entry and a cache hit refreshes the entry's recency by
moving it to the end, so the bound is preserved by every operation that
touches the cache. -/
theorem claim_C7_lru_cache_bound (c : ConfigCacheM) (op : CacheOpM)
    (k : String) (fresh v : Nat) :
    CONFIG_CACHE_MAX_SIZE = 100 ∧
    (c.length ≤ CONFIG_CACHE_MAX_SIZE →
      (applyCacheOp c op).length ≤ CONFIG_CACHE_MAX_SIZE) ∧
    (∀ e rest, c = e :: rest → cacheGet c k = none →
      CONFIG_CACHE_MAX_SIZE ≤ c.length → (c.map Prod.fst).Nodup →
      applyCacheOp c (.access k fresh) = rest ++ [(k, fresh)]) ∧
    (cacheGet c k = some v →
      applyCacheOp c (.access k fresh) = cacheDelete c k ++ [(k, v)]) := by
  refine ⟨rfl, applyCacheOp_length c op, ?_, ?_⟩
  · rintro e rest rfl hget hcap hnd
    simp only [applyCacheOp]
    rw [cacheLookupUpdate_miss_at_cap e rest k fresh hget hcap,
        cacheDelete_head_nodup e rest hnd]
  · intro hget
    simp only [applyCacheOp]
    exact cacheLookupUpdate_hit c k fresh v hget

set_option maxHeartbeats 2000000 in
theorem claim_C7_lru_cache_bound_witness :
    (applyCacheOp [] CacheOpM.clearAll).length ≤ CONFIG_CACHE_MAX_SIZE ∧
    applyCacheOp
        ((List.range 100).map (fun i => (String.mk [Char.ofNat (65 + i)], i)))
        (.access "!" 7) =
      ((List.range 100).map
        (fun i => (String.mk [Char.ofNat (65 + i)], i))).tail ++ [("!", 7)] ∧
    applyCacheOp [("a", 1), ("b", 2)] (.access "a" 9) =
      cacheDelete [("a", 1), ("b", 2)] "a" ++ [("a", 1)] := by
  refine ⟨?_, ?_, ?_⟩
  · exact (claim_C7_lru_cache_bound [] .clearAll "x" 0 0).2.1 (by decide)
  · exact (claim_C7_lru_cache_bound
        ((List.range 100).map (fun i => (String.mk [Char.ofNat (65 + i)], i)))
        .clearAll "!" 7 0).2.2.1
      (String.mk [Char.ofNat 65], 0)
      (((List.range 100).map
        (fun i => (String.mk [Char.ofNat (65 + i)], i))).tail)
      (by decide) (by decide) (by decide) (by decide)
  · exact (claim_C7_lru_cache_bound [("a", 1), ("b", 2)]
      .clearAll "a" 9 1).2.2.2 (by decide)

/- ------------------------------------------------------------------ -/
/- C3 and C4: configuration discovery and merging                      -/
/- (src/lib/config.mjs, src/lib/merge-options.mjs).                    -/
/- ------------------------------------------------------------------ -/

/-- A parsed configuration value (JSON/YAML-like). An object literal is
a list of key/value assignments in evaluation order: a later entry for
the same key overrides an earlier one, so JavaScript object spread is
list append. -/
inductive Val where
  | vobj : List (String × Val) → Val
  | vbool : Bool → Val
  | vnull : Val
  | vstr : String → Val

abbrev ObjM := List (String × Val)

/-- JavaScript truthiness of a value. -/
def truthy : Val → Bool
  | .vobj _ => true
  | .vbool b => b
  | .vnull => false
  | .vstr s => decide (s ≠ "")

/-- Property lookup on an object: the last assignment of a key wins. -/
def getKey : ObjM → String → Option Val
  | [], _ => none
  | p :: rest, k =>
    match getKey rest k with
    | some v => some v
    | none => if p.1 = k then some p.2 else none

def truthyOpt : Option Val → Bool
  | some v => truthy v
  | none => false

/-- Spreading a value as an object (`{...v}`): the fields of an object,
nothing for the primitives the config files produce. -/
def objFieldsOf : Val → ObjM
  | .vobj fields => fields
  | _ => []

def objFieldsOpt : Option Val → ObjM
  | some v => objFieldsOf v
  | none => []

/-- `mergeOptions` (src/lib/merge-options.mjs lines 9-23): spread both
objects, and when either has a truthy `config` property, overwrite the
`config` key with the key-wise spread of both `config` sub-objects. -/
def mergeOptions (first second : ObjM) : ObjM :=
  let merged := first ++ second
  let firstConfig := getKey first "config"
  let secondConfig := getKey second "config"
  if truthyOpt firstConfig || truthyOpt secondConfig then
    merged ++
      [("config", .vobj (objFieldsOpt firstConfig ++ objFieldsOpt secondConfig))]
  else merged

/-- Config filename groups (src/lib/config.mjs lines 10-42), in the
source's precedence order. -/
def MARKDOWNLINT_CLI2_CONFIG_FILENAMES : List String :=
  [".markdownlint-cli2.jsonc",
   ".markdownlint-cli2.yaml",
   ".markdownlint-cli2.yml",
   ".markdownlint-cli2.cjs",
   ".markdownlint-cli2.mjs"]

def MARKDOWNLINT_CONFIG_FILENAMES : List String :=
  [".markdownlint.jsonc",
   ".markdownlint.json",
   ".markdownlint.yaml",
   ".markdownlint.yml",
   ".markdownlint.cjs",
   ".markdownlint.mjs"]

def MARKDOWNLINT_RC_CONFIG_FILENAMES : List String :=
  [".markdownlintrc",
   ".markdownlint/config"]

def ALL_CONFIG_FILENAMES_EXCEPT_PACKAGE_JSON : List String :=
  MARKDOWNLINT_CLI2_CONFIG_FILENAMES ++
    MARKDOWNLINT_CONFIG_FILENAMES ++
    MARKDOWNLINT_RC_CONFIG_FILENAMES

def ALL_CONFIG_FILENAMES : List String :=
  ALL_CONFIG_FILENAMES_EXCEPT_PACKAGE_JSON ++ ["package.json"]

/-- `path.basename` for the slash-separated paths the resolver builds. -/
def lastSegment (p : String) : String :=
  String.mk ((p.data.reverse.takeWhile (fun c => decide (c ≠ '/'))).reverse)

def strEndsWith (p suffix : String) : Bool :=
  decide (p.data.reverse.take suffix.data.length = suffix.data.reverse)

/-- The `isMarkdownlintConfig` test of `loadConfig` (src/lib/config.mjs
lines 171-175): plain-style filenames and the two rc-style endings. -/
def isMarkdownlintConfigFile (filepath : String) : Bool :=
  decide (lastSegment filepath ∈ MARKDOWNLINT_CONFIG_FILENAMES) ||
    strEndsWith filepath ".markdownlintrc" ||
    strEndsWith filepath ".markdownlint/config"

/-- The body of the merging loop of `loadConfig` (src/lib/config.mjs
lines 167-182): a plain/rc config body is assigned wholesale to the
accumulated result's `config` key; any other source (CLI-tool-style or
the package.json sub-key) is merged via `mergeOptions`. -/
def applyConfigFile (acc : ObjM) (found : String × Val) : ObjM :=
  if isMarkdownlintConfigFile found.1 then
    acc ++ [("config", found.2)]
  else
    mergeOptions acc (objFieldsOf found.2)

/-- The merging phase of `loadConfig` (src/lib/config.mjs lines 166-182):
`foundConfigs` is in discovery order (document's directory first,
workspace root last) and is reversed before folding, so the root source
is applied first and deeper sources on top. -/
def loadConfigMerge (foundConfigs : List (String × Val)) : ObjM :=
  (foundConfigs.reverse).foldl applyConfigFile []

theorem getKey_append (a b : ObjM) (k : String) :
    getKey (a ++ b) k =
      match getKey b k with
      | some v => some v
      | none => getKey a k := by
  induction a with
  | nil => cases h : getKey b k <;> simp [getKey, h]
  | cons p rest ih =>
    simp only [List.cons_append, getKey, List.append_eq]
    rw [ih]
    cases h : getKey b k <;> simp [h]

theorem getKey_singleton_same (k : String) (v : Val) :
    getKey [(k, v)] k = some v := by
  simp [getKey]

theorem getKey_singleton_other (k k2 : String) (v : Val) (h : k ≠ k2) :
    getKey [(k, v)] k2 = none := by
  simp [getKey, h]

theorem getKey_append_last (a : ObjM) (k : String) (v : Val) :
    getKey (a ++ [(k, v)]) k = some v := by
  rw [getKey_append, getKey_singleton_same]

theorem getKey_append_other (a : ObjM) (k k2 : String) (v : Val)
    (h : k ≠ k2) : getKey (a ++ [(k, v)]) k2 = getKey a k2 := by
  rw [getKey_append, getKey_singleton_other k k2 v h]

/-- C3: per-directory configuration sources are combined root-first with
each deeper directory's source layered on top; a CLI-tool-style source
merges with the accumulated result by key-wise shallow merge with nested
`config` sub-objects merged key-wise (later directory winning per key),
while a plain-style or rc-style source assigns its parsed body wholesale
to the accumulated result's `config` key, leaving other keys intact. -/
theorem claim_C3_config_merge_semantics (acc : ObjM) (fname : String)
    (body : Val) (fields : ObjM) (k : String) (ca cb : ObjM)
    (deepSrc rootSrc : String × Val) :
    (isMarkdownlintConfigFile fname = true →
      getKey (applyConfigFile acc (fname, body)) "config" = some body) ∧
    (isMarkdownlintConfigFile fname = true → k ≠ "config" →
      getKey (applyConfigFile acc (fname, body)) k = getKey acc k) ∧
    (isMarkdownlintConfigFile fname = false → k ≠ "config" →
      getKey (applyConfigFile acc (fname, .vobj fields)) k =
        match getKey fields k with
        | some v => some v
        | none => getKey acc k) ∧
    (isMarkdownlintConfigFile fname = false →
      getKey acc "config" = some (.vobj ca) →
      getKey fields "config" = some (.vobj cb) →
      getKey (applyConfigFile acc (fname, .vobj fields)) "config" =
        some (.vobj (ca ++ cb))) ∧
    (getKey (ca ++ cb) k =
      match getKey cb k with
      | some v => some v
      | none => getKey ca k) ∧
    (loadConfigMerge [deepSrc, rootSrc] =
      applyConfigFile (applyConfigFile [] rootSrc) deepSrc) := by
  refine ⟨?_, ?_, ?_, ?_, getKey_append ca cb k, ?_⟩
  · intro hplain
    simp only [applyConfigFile, hplain, if_true]
    exact getKey_append_last acc "config" body
  · intro hplain hk
    simp only [applyConfigFile, hplain, if_true]
    exact getKey_append_other acc "config" k body (Ne.symm hk)
  · intro hcli hk
    simp only [applyConfigFile, hcli, Bool.false_eq_true, if_false, objFieldsOf]
    unfold mergeOptions
    dsimp only
    by_cases ht :
        (truthyOpt (getKey acc "config") ||
          truthyOpt (getKey fields "config")) = true
    · rw [if_pos ht, getKey_append_other _ "config" k _ (Ne.symm hk),
        getKey_append]
    · rw [if_neg (by simpa using ht), getKey_append]
  · intro hcli hca hcb
    simp only [applyConfigFile, hcli, Bool.false_eq_true, if_false, objFieldsOf]
    unfold mergeOptions
    dsimp only
    rw [hca, hcb]
    simp only [truthyOpt, truthy, Bool.true_or, if_true, objFieldsOpt,
      objFieldsOf]
    exact getKey_append_last _ "config" _
  · rfl

theorem claim_C3_config_merge_semantics_witness :
    getKey (applyConfigFile [("x", Val.vnull)]
      (".markdownlint.json", Val.vbool true)) "config" =
      some (Val.vbool true) ∧
    getKey (applyConfigFile [("config", Val.vobj [("MD013", Val.vbool false)])]
      (".markdownlint-cli2.jsonc",
        Val.vobj [("config", Val.vobj [("MD041", Val.vbool false)])]))
      "config" =
      some (Val.vobj
        ([("MD013", Val.vbool false)] ++ [("MD041", Val.vbool false)])) :=
  ⟨(claim_C3_config_merge_semantics [("x", Val.vnull)] ".markdownlint.json"
      (Val.vbool true) [] "k" [] [] ("", Val.vnull) ("", Val.vnull)).1
      (by decide),
   (claim_C3_config_merge_semantics
      [("config", Val.vobj [("MD013", Val.vbool false)])]
      ".markdownlint-cli2.jsonc" Val.vnull
      [("config", Val.vobj [("MD041", Val.vbool false)])] "k"
      [("MD013", Val.vbool false)] [("MD041", Val.vbool false)]
      ("", Val.vnull) ("", Val.vnull)).2.2.2.1 (by decide) rfl rfl⟩

/-- Outcome of reading and parsing one candidate config file: missing
(ENOENT/EISDIR), failing to read or parse, or parsed to a value. -/
inductive FileOutcome where
  | absent
  | parseError
  | parsed (v : Val)

/-- JavaScript property access `config["markdownlint-cli2"]`. -/
def lookupField : Val → String → Option Val
  | .vobj fields, k => getKey fields k
  | _, _ => none

/-- `findHighestPrecedenceConfigFileInDir` (src/lib/config.mjs lines
85-114): try the candidate filenames in order; a read or parse failure is
caught (logged) and resolution continues; a `package.json` counts only
via a truthy `markdownlint-cli2` sub-key; any other candidate counts when
its parsed value is truthy. The first counting candidate wins. -/
def findHighestPrecedenceConfigFileInDir
    (fileOutcome : String → FileOutcome) : List String → Option (String × Val)
  | [] => none
  | filename :: rest =>
    match fileOutcome filename with
    | .absent => findHighestPrecedenceConfigFileInDir fileOutcome rest
    | .parseError => findHighestPrecedenceConfigFileInDir fileOutcome rest
    | .parsed config =>
      if filename = "package.json" then
        match lookupField config "markdownlint-cli2" with
        | some sub =>
          if truthy sub then some (filename, sub)
          else findHighestPrecedenceConfigFileInDir fileOutcome rest
        | none => findHighestPrecedenceConfigFileInDir fileOutcome rest
      else
        if truthy config then some (filename, config)
        else findHighestPrecedenceConfigFileInDir fileOutcome rest

/-- What a single candidate filename contributes, in isolation. -/
def candResult (fileOutcome : String → FileOutcome) (filename : String) :
    Option Val :=
  match fileOutcome filename with
  | .parsed config =>
    if filename = "package.json" then
      match lookupField config "markdownlint-cli2" with
      | some sub => if truthy sub then some sub else none
      | none => none
    else if truthy config then some config else none
  | _ => none

def parseErrorAsAbsent : FileOutcome → FileOutcome
  | .parseError => .absent
  | o => o

/-- The filename-list choice of `loadConfig` (src/lib/config.mjs lines
151-157): only the workspace-root directory considers `package.json`. -/
def filenamesForDir (isWorkspaceRoot : Bool) : List String :=
  if isWorkspaceRoot then ALL_CONFIG_FILENAMES
  else ALL_CONFIG_FILENAMES_EXCEPT_PACKAGE_JSON

theorem findDir_eq_findSome (fileOutcome : String → FileOutcome)
    (filenames : List String) :
    findHighestPrecedenceConfigFileInDir fileOutcome filenames =
      filenames.findSome?
        (fun f => (candResult fileOutcome f).map (fun v => (f, v))) := by
  induction filenames with
  | nil => rfl
  | cons f rest ih =>
    rw [List.findSome?_cons]
    unfold findHighestPrecedenceConfigFileInDir
    cases h : fileOutcome f with
    | absent =>
      have hc : candResult fileOutcome f = none := by simp [candResult, h]
      rw [hc]
      simpa using ih
    | parseError =>
      have hc : candResult fileOutcome f = none := by simp [candResult, h]
      rw [hc]
      simpa using ih
    | parsed config =>
      by_cases hp : f = "package.json"
      · subst hp
        cases hl : lookupField config "markdownlint-cli2" with
        | some sub =>
          by_cases ht : truthy sub = true
          · have hc : candResult fileOutcome "package.json" = some sub := by
              simp [candResult, h, hl, ht]
            rw [hc]
            simp [hl, ht]
          · have hc : candResult fileOutcome "package.json" = none := by
              simp [candResult, h, hl, Bool.eq_false_iff.mpr ht]
            rw [hc]
            simp [hl, Bool.eq_false_iff.mpr ht, ih]
        | none =>
          have hc : candResult fileOutcome "package.json" = none := by
            simp [candResult, h, hl]
          rw [hc]
          simp [hl, ih]
      · by_cases ht : truthy config = true
        · have hc : candResult fileOutcome f = some config := by
            simp [candResult, h, hp, ht]
          rw [hc]
          simp [hp, ht]
        · have hc : candResult fileOutcome f = none := by
            simp [candResult, h, hp, Bool.eq_false_iff.mpr ht]
          rw [hc]
          simp only [Option.map_none', hp, if_false,
            Bool.eq_false_iff.mpr ht, Bool.false_eq_true]
          exact ih

theorem candResult_parse_error_as_absent
    (fileOutcome : String → FileOutcome) (f : String) :
    candResult (fun g => parseErrorAsAbsent (fileOutcome g)) f =
      candResult fileOutcome f := by
  unfold candResult
  cases h : fileOutcome f <;> simp [parseErrorAsAbsent, h]

theorem findDir_parse_error_as_absent (fileOutcome : String → FileOutcome)
    (filenames : List String) :
    findHighestPrecedenceConfigFileInDir
        (fun f => parseErrorAsAbsent (fileOutcome f)) filenames =
      findHighestPrecedenceConfigFileInDir fileOutcome filenames := by
  rw [findDir_eq_findSome, findDir_eq_findSome]
  congr 1
  funext f
  rw [candResult_parse_error_as_absent]

/-- C4: in every directory at most one configuration source is collected:
candidates are tried in the fixed precedence order, the first successfully
parsed (and counting) candidate wins, a candidate whose read or parse
fails is treated exactly as if absent, and `package.json` is a candidate
only in the workspace-root directory. -/
theorem claim_C4_per_directory_resolution
    (fileOutcome : String → FileOutcome) (filenames : List String) :
    (findHighestPrecedenceConfigFileInDir fileOutcome filenames =
      filenames.findSome?
        (fun f => (candResult fileOutcome f).map (fun v => (f, v)))) ∧
    (findHighestPrecedenceConfigFileInDir
        (fun f => parseErrorAsAbsent (fileOutcome f)) filenames =
      findHighestPrecedenceConfigFileInDir fileOutcome filenames) ∧
    filenamesForDir true =
      ALL_CONFIG_FILENAMES_EXCEPT_PACKAGE_JSON ++ ["package.json"] ∧
    filenamesForDir false = ALL_CONFIG_FILENAMES_EXCEPT_PACKAGE_JSON ∧
    "package.json" ∉ ALL_CONFIG_FILENAMES_EXCEPT_PACKAGE_JSON :=
  ⟨findDir_eq_findSome fileOutcome filenames,
   findDir_parse_error_as_absent fileOutcome filenames,
   rfl, rfl, by decide⟩

/- ------------------------------------------------------------------ -/
/- C1, C8, C10: Server.validateDocument (part_004 lines 414-541) and   -/
/- the per-document run/publish life cycle. All per-document maps are  -/
/- keyed by uri and independent across documents, so the state below   -/
/- is that of one document.                                            -/
/- ------------------------------------------------------------------ -/

/-- A document as the server sees it. -/
structure DocM where
  uri : String
  version : Nat
  languageId : String
deriving DecidableEq, Repr

/-- One `sendDiagnostics` message: the version it is stamped with and
the diagnostic list (diagnostics abstracted as opaque ids). -/
structure PublishMsg where
  version : Nat
  diags : List Nat
deriving DecidableEq, Repr

/-- The per-document server state touched by `validateDocument`:
`#latestVersionByUri` entry, `#documentFixes` entry, the log of
`sendDiagnostics` calls for the document, and `#configCache`. -/
structure SrvStateM where
  latest : Option Nat
  fixes : Option (List Nat)
  published : List PublishMsg
  configCache : ConfigCacheM
deriving DecidableEq, Repr

/-- Result of the awaited `lint` call: issues (diagnostics and the
subset carrying fixes, both abstracted as id lists) or a throw. -/
inductive LintOutcome where
  | ok (diags : List Nat) (fixPairs : List Nat)
  | err
deriving DecidableEq, Repr

/-- External calls `validateDocument` can make, in order. -/
inductive ExtCall where
  | loadConfigCall
  | lintCall
  | publishCall (version : Nat) (diags : List Nat)
deriving DecidableEq, Repr

/-- `Server.validateDocument` (part_004 lines 414-541) as a state
transformer, returning the new per-document state and the external calls
made. `freshConfig` is the (opaque) result `loadConfig` would produce on
a cache miss; `outcome` is the engine's behaviour; `latestAtCheck` is the
value of the `#latestVersionByUri` entry at the moment the engine
returns (during the await the entry can be restamped or deleted by other
handlers; with no interference it is `some doc.version`). The guard at
lines 415-418 returns before any of this. On success the staleness check
(line 479) gates both the publish and the fix-list update; the catch
branch (lines 531-540) deletes the fix list and publishes an empty set
without any staleness check. -/
def validateDocumentModel (st : SrvStateM) (doc : DocM)
    (workspaceRoot : String) (freshConfig : Nat) (outcome : LintOutcome)
    (latestAtCheck : Option Nat) : SrvStateM × List ExtCall :=
  if doc.languageId ≠ "markdown" then (st, [])
  else
    let currentVersion := doc.version
    let cacheKey := workspaceRoot ++ ":" ++ doc.uri
    let configCalls : List ExtCall :=
      match cacheGet st.configCache cacheKey with
      | some _ => []
      | none => [ExtCall.loadConfigCall]
    let st1 : SrvStateM :=
      { st with latest := some currentVersion,
                configCache :=
                  cacheLookupUpdate st.configCache cacheKey freshConfig }
    let st2 : SrvStateM := { st1 with latest := latestAtCheck }
    match outcome with
    | .ok diags fixPairs =>
      if latestAtCheck ≠ some currentVersion then
        (st2, configCalls ++ [ExtCall.lintCall])
      else
        ({ st2 with fixes := some fixPairs,
                    published := st2.published ++ [⟨currentVersion, diags⟩] },
         configCalls ++ [ExtCall.lintCall,
           ExtCall.publishCall currentVersion diags])
    | .err =>
      ({ st2 with fixes := none,
                  published := st2.published ++ [⟨currentVersion, []⟩] },
       configCalls ++ [ExtCall.lintCall,
         ExtCall.publishCall currentVersion []])

/-- C10: a validation request for a document whose languageId is not
"markdown" returns immediately: configuration is not resolved, the engine
is not invoked, nothing is published, and all per-document state
(version map, fix list, config cache) is unchanged. -/
theorem claim_C10_non_markdown_guard (st : SrvStateM) (doc : DocM)
    (workspaceRoot : String) (freshConfig : Nat) (outcome : LintOutcome)
    (latestAtCheck : Option Nat) (h : doc.languageId ≠ "markdown") :
    validateDocumentModel st doc workspaceRoot freshConfig outcome
      latestAtCheck = (st, []) := by
  unfold validateDocumentModel
  rw [if_pos h]

theorem claim_C10_non_markdown_guard_witness :
    validateDocumentModel ⟨none, none, [], []⟩ ⟨"file:///a.md", 1, "latex"⟩
      "/ws" 0 .err none = (⟨none, none, [], []⟩, []) :=
  claim_C10_non_markdown_guard ⟨none, none, [], []⟩
    ⟨"file:///a.md", 1, "latex"⟩ "/ws" 0 .err none (by decide)

/-- C8: when the analysis engine throws, the run publishes an empty
diagnostic set stamped with the affected document version, removes the
stored fix list, and does not retry: the engine is called exactly once
and the final external call is the empty publish. -/
theorem claim_C8_lint_error_clears (st : SrvStateM) (doc : DocM)
    (workspaceRoot : String) (freshConfig : Nat) (latestAtCheck : Option Nat)
    (h : doc.languageId = "markdown") :
    ((validateDocumentModel st doc workspaceRoot freshConfig .err
        latestAtCheck).1.fixes = none) ∧
    ((validateDocumentModel st doc workspaceRoot freshConfig .err
        latestAtCheck).1.published = st.published ++ [⟨doc.version, []⟩]) ∧
    (((validateDocumentModel st doc workspaceRoot freshConfig .err
        latestAtCheck).2.filter
          (fun c => decide (c = ExtCall.lintCall))).length = 1) ∧
    ((validateDocumentModel st doc workspaceRoot freshConfig .err
        latestAtCheck).2.getLast? =
      some (ExtCall.publishCall doc.version [])) := by
  unfold validateDocumentModel
  rw [if_neg (by simp [h])]
  dsimp only
  refine ⟨rfl, rfl, ?_, ?_⟩
  · cases hc : cacheGet st.configCache (workspaceRoot ++ ":" ++ doc.uri) <;>
      simp [hc, List.filter]
  · cases hc : cacheGet st.configCache (workspaceRoot ++ ":" ++ doc.uri) <;>
      simp [hc]

theorem claim_C8_lint_error_clears_witness :
    ((validateDocumentModel ⟨some 1, some [4], [], []⟩
        ⟨"file:///a.md", 1, "markdown"⟩ "/ws" 0 .err (some 1)).1.fixes =
      none) ∧
    ((validateDocumentModel ⟨some 1, some [4], [], []⟩
        ⟨"file:///a.md", 1, "markdown"⟩ "/ws" 0 .err (some 1)).1.published =
      [] ++ [⟨1, []⟩]) :=
  ⟨(claim_C8_lint_error_clears ⟨some 1, some [4], [], []⟩
      ⟨"file:///a.md", 1, "markdown"⟩ "/ws" 0 (some 1) rfl).1,
   (claim_C8_lint_error_clears ⟨some 1, some [4], [], []⟩
      ⟨"file:///a.md", 1, "markdown"⟩ "/ws" 0 (some 1) rfl).2.1⟩

/-- One scheduler-visible event of the per-document validation life
cycle: `start v` is the stamp `#latestVersionByUri.set(uri, v)` at the
top of a run (part_004 line 431); `finishOk v diags` is the completion
of the engine call for the run stamped `v`, with the staleness check and
publish (lines 479-527); `finishErr v` is the catch branch (lines
531-540), which publishes an empty set unconditionally. -/
inductive RunEvent where
  | start (v : Nat)
  | finishOk (v : Nat) (diags : List Nat)
  | finishErr (v : Nat)
deriving DecidableEq, Repr

def isStart : RunEvent → Bool
  | .start _ => true
  | _ => false

/-- The per-document state the staleness guard reads and the publish log
it appends to. -/
structure RunState where
  latest : Option Nat
  published : List PublishMsg
deriving DecidableEq, Repr

def runStep (s : RunState) : RunEvent → RunState
  | .start v => { s with latest := some v }
  | .finishOk v diags =>
    if s.latest = some v then
      { s with published := s.published ++ [⟨v, diags⟩] }
    else s
  | .finishErr v => { s with published := s.published ++ [⟨v, []⟩] }

/-- A sequence of interleaved run events for one document. This is a
superset of the interleavings the single-flight queue allows, so any
property proved over all traces holds for the real scheduler. -/
def runTrace (s : RunState) (events : List RunEvent) : RunState :=
  events.foldl runStep s

theorem runTrace_no_start_publishes (vf : Nat) (events : List RunEvent)
    (s : RunState) (hlatest : s.latest = some vf)
    (hnostart : ∀ e ∈ events, isStart e = false) :
    ∀ p ∈ (runTrace s events).published,
      p ∈ s.published ∨ p.version = vf ∨ p.diags = [] := by
  induction events generalizing s with
  | nil => intro p hp; exact Or.inl hp
  | cons e rest ih =>
    intro p hp
    have hstep : (runStep s e).latest = some vf ∧
        (∀ q ∈ (runStep s e).published,
          q ∈ s.published ∨ q.version = vf ∨ q.diags = []) := by
      cases e with
      | start w =>
        have := hnostart _ (List.mem_cons_self _ _)
        simp [isStart] at this
      | finishOk v d =>
        by_cases hv : s.latest = some v
        · refine ⟨by simpa [runStep, hv] using hlatest, ?_⟩
          intro q hq
          simp only [runStep, if_pos hv] at hq
          rcases List.mem_append.mp hq with hq | hq
          · exact Or.inl hq
          · have hq' : q = ⟨v, d⟩ := by simpa using hq
            subst hq'
            have h2 : some v = some vf := by rw [← hv]; exact hlatest
            injection h2 with h2
            exact Or.inr (Or.inl h2)
        · exact ⟨by simpa [runStep, hv] using hlatest,
            fun q hq => Or.inl (by simpa [runStep, hv] using hq)⟩
      | finishErr v =>
        refine ⟨by simpa [runStep] using hlatest, ?_⟩
        intro q hq
        simp only [runStep] at hq
        rcases List.mem_append.mp hq with hq | hq
        · exact Or.inl hq
        · have hq' : q = ⟨v, []⟩ := by simpa using hq
          subst hq'
          exact Or.inr (Or.inr rfl)
    have hp' : p ∈ (runTrace (runStep s e) rest).published := by
      simpa [runTrace] using hp
    rcases ih (runStep s e) hstep.1
        (fun e' he' => hnostart e' (List.mem_cons_of_mem _ he')) p hp' with
      hq | hq | hq
    · exact hstep.2 p hq
    · exact Or.inr (Or.inl hq)
    · exact Or.inr (Or.inr hq)

/-- C1: a completed run publishes its computed diagnostics only when the
document's recorded latest-requested version still equals the version
stamped when the run started; otherwise the result is discarded without
publishing. Consequently, over any event suffix containing no further
version stamp, every newly published non-empty diagnostic set carries
the final stamped version. -/
theorem claim_C1_staleness_guard (s : RunState) (v vf : Nat)
    (diags : List Nat) (events : List RunEvent) :
    (s.latest ≠ some v → runStep s (.finishOk v diags) = s) ∧
    (s.latest = some v →
      runStep s (.finishOk v diags) =
        { s with published := s.published ++ [⟨v, diags⟩] }) ∧
    (s.latest = some vf → (∀ e ∈ events, isStart e = false) →
      ∀ p ∈ (runTrace s events).published,
        p ∈ s.published ∨ p.version = vf ∨ p.diags = []) := by
  refine ⟨?_, ?_, runTrace_no_start_publishes vf events s⟩
  · intro h; simp [runStep, h]
  · intro h; simp [runStep, h]

theorem claim_C1_staleness_guard_witness :
    runStep ⟨some 2, []⟩ (.finishOk 1 [5]) = ⟨some 2, []⟩ ∧
    runStep ⟨some 2, []⟩ (.finishOk 2 [5]) = ⟨some 2, [⟨2, [5]⟩]⟩ ∧
    ((⟨7, [1]⟩ : PublishMsg) ∈ ([] : List PublishMsg) ∨
      (⟨7, [1]⟩ : PublishMsg).version = 7 ∨
      (⟨7, [1]⟩ : PublishMsg).diags = []) :=
  ⟨(claim_C1_staleness_guard ⟨some 2, []⟩ 1 0 [5] []).1 (by decide),
   (claim_C1_staleness_guard ⟨some 2, []⟩ 2 0 [5] []).2.1 rfl,
   (claim_C1_staleness_guard ⟨some 7, []⟩ 0 7 []
      [.finishErr 3, .finishOk 7 [1]]).2.2 rfl (by decide)
      ⟨7, [1]⟩ (by decide)⟩

/- ------------------------------------------------------------------ -/
/- C9: config-cache keys (part_004 lines 229, 434 and                  -/
/- src/lib/cache-keys.mjs).                                            -/
/- ------------------------------------------------------------------ -/

/-- The cache key built by `Server.validateDocument` (part_004 line 434). -/
def serverConfigCacheKey (workspaceRoot documentUri : String) : String :=
  workspaceRoot ++ ":" ++ documentUri

/-- The cache key deleted by the document-close handler (part_004 line
229). -/
def serverCloseConfigCacheKey (workspaceRoot documentUri : String) : String :=
  workspaceRoot ++ ":" ++ documentUri

/-- `documentUri.startsWith("file:")`; an empty URI also fails this. -/
def hasFileScheme (uri : String) : Bool :=
  decide (uri.data.take 5 = "file:".data)

/-- `fileURLToPath` restricted to the plain posix `file:///...` URIs
exercised here: strip the scheme-and-authority prefix `file://`
(percent-decoding and Windows paths are out of scope). -/
def fileUriToPath (uri : String) : String :=
  String.mk (uri.data.drop 7)

/-- `path.dirname` for multi-segment posix paths: drop the last
slash-separated segment and the slash before it. -/
def posixDirname (p : String) : String :=
  String.mk (((p.data.reverse.dropWhile (fun c => decide (c ≠ '/'))).drop 1).reverse)

/-- `getConfigCacheKey` (src/lib/cache-keys.mjs lines 4-17): a non-file
(or empty) URI is keyed by the full URI, a file URI by its containing
directory. The `workspaceRoot || process.cwd()` fallback for an empty
root is not modelled. -/
def getConfigCacheKey (documentUri workspaceRoot : String) : String :=
  if hasFileScheme documentUri then
    workspaceRoot ++ ":" ++ posixDirname (fileUriToPath documentUri)
  else
    workspaceRoot ++ ":" ++ documentUri

/-- C9 counterexample: for a path-addressable (file:) URI the server's
actual cache key (part_004 line 434) is built from the full document
URI, not from the containing directory as the claim states; the
directory-based key is produced only by the helper `getConfigCacheKey`,
which the server does not call. -/
theorem claim_C9_counterexample :
    serverConfigCacheKey "/ws" "file:///ws/docs/a.md" =
      "/ws" ++ ":" ++ "file:///ws/docs/a.md" ∧
    getConfigCacheKey "file:///ws/docs/a.md" "/ws" =
      "/ws" ++ ":" ++ "/ws/docs" ∧
    serverConfigCacheKey "/ws" "file:///ws/docs/a.md" ≠
      getConfigCacheKey "file:///ws/docs/a.md" "/ws" := by
  refine ⟨rfl, ?_, ?_⟩
  · decide
  · decide

/-- C9 (amended): every config-cache key the server builds is
`<workspaceRoot>:<documentUri>` with the full document URI, for file and
non-file URIs alike, and the set and delete sites agree; the helper
`getConfigCacheKey` implements the claimed directory-based scheme and
coincides with the server's key exactly on non-path-addressable URIs. -/
theorem claim_C9_cache_key_shape (workspaceRoot documentUri : String) :
    serverConfigCacheKey workspaceRoot documentUri =
      workspaceRoot ++ ":" ++ documentUri ∧
    serverCloseConfigCacheKey workspaceRoot documentUri =
      serverConfigCacheKey workspaceRoot documentUri ∧
    (hasFileScheme documentUri = false →
      getConfigCacheKey documentUri workspaceRoot =
        serverConfigCacheKey workspaceRoot documentUri) ∧
    (hasFileScheme documentUri = true →
      getConfigCacheKey documentUri workspaceRoot =
        workspaceRoot ++ ":" ++ posixDirname (fileUriToPath documentUri)) := by
  refine ⟨rfl, rfl, ?_, ?_⟩
  · intro h
    simp [getConfigCacheKey, h, serverConfigCacheKey]
  · intro h
    simp [getConfigCacheKey, h]

theorem claim_C9_cache_key_shape_witness :
    getConfigCacheKey "untitled:notes" "/ws" =
      serverConfigCacheKey "/ws" "untitled:notes" ∧
    getConfigCacheKey "file:///ws/a.md" "/ws" =
      "/ws" ++ ":" ++ posixDirname (fileUriToPath "file:///ws/a.md") :=
  ⟨(claim_C9_cache_key_shape "/ws" "untitled:notes").2.2.1 (by decide),
   (claim_C9_cache_key_shape "/ws" "file:///ws/a.md").2.2.2 (by decide)⟩
